import Mathlib

/-!
Shallow embedding of the RAG core of the `cloudigest` repository
(package `rag`, file `cmd/scan.go` third section / `prod/pkg/rag/rag.go`;
the two generations share the same logic for every function modelled here,
the `cmd/scan.go` generation additionally carries the `useOpenAI` backend
flag and the Claude constructor).

Modelling conventions:
  * `float32` values are modelled as exact rationals `ℚ`.  The only place
    where IEEE behaviour is observable for the stated properties is the
    final division of `cosineSimilarity`: Go performs it unconditionally,
    and when the denominator is `0` the numerator is provably `0` as well,
    so the IEEE result is `0/0 = NaN`.  We model the result type as
    `Option ℚ`, `none` standing for that NaN outcome.
  * The Go `map[string][]float32` is modelled as an insertion-ordered
    association list with overwrite-on-insert (`mapSet`) and zero-value
    lookup (`mapGet` returns the empty vector for a missing key, exactly
    as a Go map access without an ok-check returns the nil slice).
  * The external OpenAI / Claude network clients are abstracted as
    function parameters (`openaiEmbed` for `CreateEmbeddings`, `gen` for
    the chat-completion calls); fallible calls return `Except String`.
  * Go methods with a pointer receiver are modelled as explicit state
    passing: a method that mutates the receiver returns the new `RAG`
    value (paired with its error result where the source returns one).
-/

namespace Cloudigest

/-- Document record, translated from `type Document struct` in the `rag`
package: content, human-readable source label, and free-form type tag. -/
structure Document where
  Content : String
  Source : String
  «Type» : String
deriving DecidableEq, Repr

/-- Association-list model of the Go map `map[string][]float32`: ordered
list of key/value pairs. -/
abbrev EmbMap := List (String × List ℚ)

/-- Go map assignment `m[k] = v`: overwrite the entry for `k` if present,
otherwise append a new entry. -/
def mapSet (k : String) (v : List ℚ) : EmbMap → EmbMap
  | [] => [(k, v)]
  | (k₂, v₂) :: rest => if k₂ = k then (k, v) :: rest else (k₂, v₂) :: mapSet k v rest

/-- Go map access `m[k]` without an ok-check: the value stored for `k`,
or the zero value (nil slice, modelled as `[]`) when `k` is absent. -/
def mapGet (k : String) : EmbMap → List ℚ
  | [] => []
  | (k₂, v₂) :: rest => if k₂ = k then v₂ else mapGet k rest

/-- RAG state, translated from `type RAG struct` in `cmd/scan.go`:
the chunk list `documents`, the content-keyed `embeddings` map, the
configured `chunkSize` and `maxTokens`, and the backend-selection flag
`useOpenAI`.  The two network client handles are not part of the state
model (they are abstracted as function parameters at the call sites). -/
structure RAG where
  documents : List Document
  embeddings : EmbMap
  chunkSize : Int
  maxTokens : Int
  useOpenAI : Bool
deriving DecidableEq, Repr

/-- Translated from `NewRAG`: empty index, chunkSize 1000, maxTokens 4000,
OpenAI backend selected. -/
def NewRAG : RAG :=
  { documents := []
    embeddings := []
    chunkSize := 1000
    maxTokens := 4000
    useOpenAI := true }

/-- Translated from `NewRAGWithClaude`: empty index, chunkSize 1000,
maxTokens 4000, Claude backend selected (`useOpenAI = false`).  The API
key argument only feeds the unmodelled network client handle. -/
def NewRAGWithClaude : RAG :=
  { documents := []
    embeddings := []
    chunkSize := 1000
    maxTokens := 4000
    useOpenAI := false }

/-- Translated from `SetChunkSize`: stores the given size unconditionally. -/
def SetChunkSize (r : RAG) (size : Int) : RAG :=
  { r with chunkSize := size }

/-- Translated from `SetMaxTokens`: stores the given budget unconditionally. -/
def SetMaxTokens (r : RAG) (tokens : Int) : RAG :=
  { r with maxTokens := tokens }

/-- Character-level splitter backing the model of Go `strings.Fields`:
cut the character list at every whitespace character (producing an empty
run for each boundary), keeping contiguous non-whitespace runs together. -/
def splitRuns : List Char → List (List Char)
  | [] => []
  | c :: cs =>
    if c.isWhitespace then [] :: splitRuns cs
    else
      match splitRuns cs with
      | [] => [[c]]
      | w :: ws => (c :: w) :: ws

/-- Model of Go `strings.Fields`: the maximal runs of non-whitespace
characters of `s`, in order (splitting around runs of whitespace, with
no empty fields). -/
def fields (s : String) : List String :=
  ((splitRuns s.data).filter (fun w => w ≠ [])).map (fun w => ⟨w⟩)

/-- The word-accumulation loop of `splitIntoChunks`, translated from the
source: take the next word into `currentChunk`; when the buffer reaches
`chunkSize` words (`len(currentChunk) >= r.chunkSize`, an `int`
comparison, hence `Int` here) flush it as one chunk; flush any non-empty
remainder at end of input.  The source joins each flushed buffer with
`" "` at flush time; we keep the flushed buffers as word lists and apply
the join in `splitIntoChunks`, which produces the same chunk strings. -/
def splitWords (chunkSize : Int) : List String → List String → List (List String)
  | [], currentChunk => if currentChunk.length > 0 then [currentChunk] else []
  | w :: ws, currentChunk =>
      let cur := currentChunk ++ [w]
      if (cur.length : Int) ≥ chunkSize then cur :: splitWords chunkSize ws []
      else splitWords chunkSize ws cur

/-- Translated from `splitIntoChunks`: split `text` into whitespace-
delimited words and group them into chunks of at most `chunkSize` words,
each chunk re-joined with single spaces. -/
def splitIntoChunks (chunkSize : Int) (text : String) : List String :=
  (splitWords chunkSize (fields text) []).map (fun c => String.intercalate " " c)

/-- Translated from the helper `func sqrt(x float32) float32`: the body is
`float32(float64(x))`, i.e. a widening conversion immediately undone —
numerically the identity (every float32 is exactly representable as a
float64 and converts back unchanged), not a square root. -/
def sqrt (x : ℚ) : ℚ := x

/-- The summation loop of `cosineSimilarity`: pairwise products summed.
`dot a b` is `dotProduct`, `dot a a` is `normA`, `dot b b` is `normB`. -/
def dot : List ℚ → List ℚ → ℚ
  | x :: xs, y :: ys => x * y + dot xs ys
  | _, _ => 0

/-- Translated from `cosineSimilarity`: dot product divided by the product
of the two `sqrt`-mapped norm accumulators.  The Go loop runs over the
indices of `a`, so this matches the source exactly when the two vectors
have equal length (the only case the program exercises: all embeddings
come from the same model).  The division is performed unconditionally in
the source; when the denominator is `0` the numerator is `0` too, so Go
returns the float `NaN`, modelled here as `none`. -/
def cosineSimilarity (a b : List ℚ) : Option ℚ :=
  let dotProduct := dot a b
  let normA := dot a a
  let normB := dot b b
  if sqrt normA * sqrt normB = 0 then none
  else some (dotProduct / (sqrt normA * sqrt normB))

/-- Translated from `getEmbedding` in `cmd/scan.go`: in OpenAI mode the
request is forwarded to the OpenAI embeddings endpoint (abstracted as
`openaiEmbed`); in Claude mode the call fails fast with the literal
error message of the source, since Claude has no embeddings API. -/
def getEmbedding (openaiEmbed : String → Except String (List ℚ)) (r : RAG)
    (text : String) : Except String (List ℚ) :=
  if r.useOpenAI then openaiEmbed text
  else .error "Claude mode requires an OpenAI API key for embeddings - this is not implemented yet"

/-- The ingestion loop of `AddDocument`, translated from the source: for
each chunk in order, get its embedding; on failure stop immediately and
return the wrapped error together with the state as mutated so far; on
success append the chunk (with the source and type of the parent document) to
`documents` and store its embedding under the chunk text. -/
def addChunks (openaiEmbed : String → Except String (List ℚ)) (src ty : String) :
    RAG → List String → RAG × Option String
  | r, [] => (r, none)
  | r, chunk :: rest =>
    match getEmbedding openaiEmbed r chunk with
    | .error e => (r, some ("failed to get embedding: " ++ e))
    | .ok embedding =>
        addChunks openaiEmbed src ty
          { r with
            documents := r.documents ++ [⟨chunk, src, ty⟩]
            embeddings := mapSet chunk embedding r.embeddings }
          rest

/-- Translated from `AddDocument`: split the document into chunks and run
the ingestion loop.  Returns the (possibly part-way) updated state and
`some` error message exactly when an embedding call failed. -/
def AddDocument (openaiEmbed : String → Except String (List ℚ)) (r : RAG)
    (doc : Document) : RAG × Option String :=
  addChunks openaiEmbed doc.Source doc.Type r (splitIntoChunks r.chunkSize doc.Content)

/-- Translated from `findRelevantDocuments`: score every indexed chunk
against the query embedding (looking its vector up by chunk content),
then — the sort step being absent in the source ("Implementation of
sorting omitted for brevity") — return the first three entries of the
score list, i.e. the first three documents in ingestion order. -/
def findRelevantDocuments (r : RAG) (queryEmbedding : List ℚ) : List Document :=
  let scores := r.documents.map
    (fun doc => (doc, cosineSimilarity queryEmbedding (mapGet doc.Content r.embeddings)))
  (scores.take 3).map (fun p => p.1)

/-- Translated from `buildContext`: fixed preamble, then for each chunk a
`Source:` line, the chunk content, and a blank-line separator. -/
def buildContext (docs : List Document) : String :=
  docs.foldl
    (fun acc doc => acc ++ "Source: " ++ doc.Source ++ "\n" ++ doc.Content ++ "\n\n")
    "Based on the following information:\n\n"

/-- The fixed system instruction of `generateAnswer`. -/
def ragSystemText : String :=
  "You are an infrastructure optimization expert. Use the provided context to answer questions about infrastructure, " ++
  "services, and container deployments. Provide clear, actionable recommendations without implementing them directly."

/-- Translated from `generateAnswer`: in OpenAI mode the system text and
the user content (`ctx + "\n\nQuestion: " + question`) are sent as two
chat messages; in Claude mode they are concatenated into one user
message.  The network call is abstracted as `gen system user maxTokens`. -/
def generateAnswer (gen : String → String → Int → Except String String) (r : RAG)
    (ctx question : String) : Except String String :=
  if r.useOpenAI then gen ragSystemText (ctx ++ "\n\nQuestion: " ++ question) r.maxTokens
  else gen "" (ragSystemText ++ "\n\n" ++ ctx ++ "\n\nQuestion: " ++ question) r.maxTokens

/-- Translated from `Query`: embed the question (wrapping a failure), rank
the indexed chunks, assemble the context, generate the answer.  None of
the steps assigns to any receiver field, so the state component of the
result is the input state. -/
def Query (openaiEmbed : String → Except String (List ℚ))
    (gen : String → String → Int → Except String String) (r : RAG)
    (question : String) : RAG × Except String String :=
  match getEmbedding openaiEmbed r question with
  | .error e => (r, .error ("failed to get question embedding: " ++ e))
  | .ok questionEmbedding =>
      let relevantDocs := findRelevantDocuments r questionEmbedding
      let ctx := buildContext relevantDocs
      (r, generateAnswer gen r ctx question)

/-- Number of entries of the embeddings map that carry the key `k`
(observation used to state the content-addressing invariant). -/
def countKey (k : String) (m : EmbMap) : Nat :=
  (m.filter (fun p => p.1 = k)).length

/-- Well-formedness of the association-list map model: no two entries
share a key.  Holds for the empty map and is preserved by `mapSet`, so it
holds for every reachable embeddings map. -/
def NoDupKeys (m : EmbMap) : Prop :=
  (m.map Prod.fst).Nodup

instance (m : EmbMap) : Decidable (NoDupKeys m) := by
  unfold NoDupKeys
  infer_instance

/-- The embeddings map produced by a run of the ingestion loop in which
every chunk embeds successfully: the vector of each chunk stored in order
under the chunk text. -/
def insertAll (openaiEmbed : String → Except String (List ℚ))
    (cs : List String) (m : EmbMap) : EmbMap :=
  cs.foldl
    (fun m c => match openaiEmbed c with
      | .ok v => mapSet c v m
      | .error _ => m)
    m

/-! Helper lemmas: `String.intercalate` algebra, properties of the
word-accumulation loop, and properties of the association-list map. -/

theorem intercalate_cons_cons (s : String) : ∀ (l : List String) (a b : String),
    String.intercalate s (a :: b :: l) = a ++ s ++ String.intercalate s (b :: l)
  | [], a, b => by simp [String.intercalate, String.intercalate.go]
  | c :: t, a, b => by
    have h1 : String.intercalate s (a :: b :: c :: t)
        = String.intercalate s ((a ++ s ++ b) :: c :: t) := rfl
    rw [h1, intercalate_cons_cons s t (a ++ s ++ b) c, intercalate_cons_cons s t b c]
    simp [String.append_assoc]

theorem intercalate_one (s a : String) : String.intercalate s [a] = a := by
  simp [String.intercalate, String.intercalate.go]

theorem intercalate_append (s : String) : ∀ (l₁ l₂ : List String), l₁ ≠ [] → l₂ ≠ [] →
    String.intercalate s (l₁ ++ l₂) = String.intercalate s l₁ ++ s ++ String.intercalate s l₂
  | [], _, h₁, _ => absurd rfl h₁
  | [a], b :: l₂, _, _ => by
    simpa using intercalate_cons_cons s l₂ a b
  | a :: c :: t, l₂, _, h₂ => by
    have ih := intercalate_append s (c :: t) l₂ (by simp) h₂
    simp only [List.cons_append] at ih ⊢
    rw [intercalate_cons_cons, ih, intercalate_cons_cons]
    simp [String.append_assoc]

theorem flatten_ne_nil (gs : List (List String)) (g : List String)
    (hg : g ≠ []) : (g :: gs).flatten ≠ [] := by
  cases g with
  | nil => exact absurd rfl hg
  | cons x xs => simp

theorem intercalate_map_flatten (s : String) : ∀ (gs : List (List String)),
    (∀ g ∈ gs, g ≠ []) →
    String.intercalate s (gs.map (fun g => String.intercalate s g))
      = String.intercalate s gs.flatten
  | [], _ => rfl
  | [g], _ => by
    simp only [List.map]
    simp [String.intercalate, String.intercalate.go]
  | g :: g₂ :: t, h => by
    have hg : g ≠ [] := h g (by simp)
    have hrest : ∀ x ∈ g₂ :: t, x ≠ [] := fun x hx => h x (by simp [hx])
    have ih := intercalate_map_flatten s (g₂ :: t) hrest
    have hflat : (g₂ :: t).flatten ≠ [] := flatten_ne_nil t g₂ (hrest g₂ (by simp))
    calc String.intercalate s ((g :: g₂ :: t).map (fun g => String.intercalate s g))
        = String.intercalate s (String.intercalate s g :: ((g₂ :: t).map (fun g => String.intercalate s g))) := rfl
      _ = String.intercalate s g ++ s ++ String.intercalate s ((g₂ :: t).map (fun g => String.intercalate s g)) := by
          cases t <;> exact intercalate_cons_cons s _ _ _
      _ = String.intercalate s g ++ s ++ String.intercalate s (g₂ :: t).flatten := by rw [ih]
      _ = String.intercalate s (g ++ (g₂ :: t).flatten) := (intercalate_append s g (g₂ :: t).flatten hg hflat).symm
      _ = String.intercalate s ((g :: g₂ :: t).flatten) := by simp

theorem splitWords_flatten (N : Int) : ∀ (ws cur : List String),
    (splitWords N ws cur).flatten = cur ++ ws
  | [], cur => by
    simp only [splitWords]
    split
    · simp
    · simp_all [List.length_eq_zero]
  | w :: ws, cur => by
    simp only [splitWords]
    split
    · simp [splitWords_flatten N ws []]
    · simp [splitWords_flatten N ws (cur ++ [w])]

theorem splitWords_ne_nil (N : Int) : ∀ (ws cur : List String),
    ∀ g ∈ splitWords N ws cur, g ≠ []
  | [], cur => by
    simp only [splitWords]
    split
    · intro g hg
      simp only [List.mem_singleton] at hg
      subst hg
      simp_all [List.length_pos]
    · simp
  | w :: ws, cur => by
    simp only [splitWords]
    split
    · intro g hg
      rcases List.mem_cons.mp hg with h | h
      · subst h; simp
      · exact splitWords_ne_nil N ws [] g h
    · exact splitWords_ne_nil N ws (cur ++ [w])

theorem splitWords_length_le (N : Int) (hN : 0 < N) : ∀ (ws cur : List String),
    (cur.length : Int) < N →
    ∀ g ∈ splitWords N ws cur, (g.length : Int) ≤ N
  | [], cur => by
    intro hcur
    simp only [splitWords]
    split
    · intro g hg
      simp only [List.mem_singleton] at hg
      subst hg
      omega
    · simp
  | w :: ws, cur => by
    intro hcur
    simp only [splitWords]
    split
    · intro g hg
      rcases List.mem_cons.mp hg with h | h
      · subst h
        simp only [List.length_append, List.length_singleton] at *
        omega
      · exact splitWords_length_le N hN ws [] (by simpa using hN) g h
    · rename_i hcond
      intro g hg
      refine splitWords_length_le N hN ws (cur ++ [w]) ?_ g hg
      simp only [List.length_append, List.length_singleton] at hcond ⊢
      omega

theorem splitWords_length (N : Int) (hN : 0 < N) : ∀ (ws cur : List String),
    (cur.length : Int) < N →
    (splitWords N ws cur).length
      = (cur.length + ws.length + (N.toNat - 1)) / N.toNat
  | [], cur => by
    intro hcur
    have hn : 1 ≤ N.toNat := by omega
    have hc : cur.length < N.toNat := by omega
    simp only [splitWords, List.length_nil]
    split
    · rename_i hpos
      have : cur.length + 0 + (N.toNat - 1) < 2 * N.toNat := by omega
      have hlo : 1 * N.toNat ≤ cur.length + 0 + (N.toNat - 1) := by omega
      simp only [List.length_singleton]
      rw [Nat.div_eq_of_lt_le hlo (by omega)]
    · rename_i hzero
      have hc0 : cur.length = 0 := by omega
      simp only [List.length_nil]
      rw [Nat.div_eq_of_lt (by omega)]
  | w :: ws, cur => by
    intro hcur
    have hn : 1 ≤ N.toNat := by omega
    have hc : cur.length < N.toNat := by omega
    simp only [splitWords]
    split
    · rename_i hcond
      simp only [List.length_append, List.length_singleton] at hcond
      have hfull : cur.length + 1 = N.toNat := by omega
      have ih := splitWords_length N hN ws [] (by simpa using hN)
      simp only [List.length_nil, Nat.zero_add] at ih
      simp only [List.length_cons, ih]
      have harg : cur.length + (ws.length + 1) + (N.toNat - 1)
          = (ws.length + (N.toNat - 1)) + N.toNat := by omega
      rw [harg, Nat.add_div_right _ (by omega)]
    · rename_i hcond
      simp only [List.length_append, List.length_singleton] at hcond
      have ih := splitWords_length N hN ws (cur ++ [w]) (by
        simp only [List.length_append, List.length_singleton]
        omega)
      simp only [List.length_append, List.length_singleton] at ih
      simp only [List.length_cons]
      rw [ih]
      congr 1
      omega

theorem memKey_mapSet_self (k : String) (v : List ℚ) : ∀ (m : EmbMap),
    k ∈ (mapSet k v m).map Prod.fst
  | [] => by simp [mapSet]
  | (k₂, v₂) :: rest => by
    simp only [mapSet]
    split
    · simp
    · simpa using Or.inr (memKey_mapSet_self k v rest)

theorem memKey_mapSet_mono (k k₂ : String) (v : List ℚ) : ∀ (m : EmbMap),
    k ∈ m.map Prod.fst → k ∈ (mapSet k₂ v m).map Prod.fst
  | [], h => by simp at h
  | (k₃, v₃) :: rest, h => by
    simp only [mapSet]
    split
    · rename_i heq
      rcases (by simpa using h : k = k₃ ∨ k ∈ rest.map Prod.fst) with h₁ | h₁
      · subst h₁; subst heq; simp
      · simp [h₁]
    · rcases (by simpa using h : k = k₃ ∨ k ∈ rest.map Prod.fst) with h₁ | h₁
      · subst h₁; simp
      · simpa using Or.inr (memKey_mapSet_mono k k₂ v rest h₁)

theorem keys_mapSet_subset (k : String) (v : List ℚ) : ∀ (m : EmbMap) (x : String),
    x ∈ (mapSet k v m).map Prod.fst → x = k ∨ x ∈ m.map Prod.fst
  | [], x, h => by
    simp only [mapSet, List.map_cons, List.map_nil, List.mem_singleton] at h
    exact Or.inl h
  | (k₂, v₂) :: rest, x, h => by
    simp only [mapSet] at h
    split at h
    · rename_i heq
      rcases (by simpa using h : x = k ∨ x ∈ rest.map Prod.fst) with h₁ | h₁
      · exact Or.inl h₁
      · exact Or.inr (by simp [h₁])
    · rcases (by simpa using h : x = k₂ ∨ x ∈ (mapSet k v rest).map Prod.fst) with h₁ | h₁
      · exact Or.inr (by simp [h₁])
      · rcases keys_mapSet_subset k v rest x h₁ with h₂ | h₂
        · exact Or.inl h₂
        · exact Or.inr (by simp [h₂])

theorem noDupKeys_mapSet (k : String) (v : List ℚ) : ∀ (m : EmbMap),
    NoDupKeys m → NoDupKeys (mapSet k v m)
  | [], _ => by simp [mapSet, NoDupKeys]
  | (k₂, v₂) :: rest, h => by
    simp only [NoDupKeys, List.map_cons, List.nodup_cons] at h
    simp only [mapSet]
    split
    · rename_i heq
      subst heq
      simpa [NoDupKeys] using h
    · rename_i hne
      have htail := noDupKeys_mapSet k v rest h.2
      simp only [NoDupKeys, List.map_cons, List.nodup_cons]
      refine ⟨?_, htail⟩
      intro hmem
      rcases keys_mapSet_subset k v rest k₂ hmem with h₁ | h₁
      · exact hne h₁
      · exact h.1 h₁

theorem countKey_cons (k k₂ : String) (v₂ : List ℚ) (rest : EmbMap) :
    countKey k ((k₂, v₂) :: rest)
      = (if k₂ = k then 1 else 0) + countKey k rest := by
  simp only [countKey, List.filter_cons]
  by_cases hk : k₂ = k
  · simp [hk, Nat.add_comm]
  · simp [hk]

theorem countKey_eq_zero_of_not_mem (k : String) : ∀ (m : EmbMap),
    k ∉ m.map Prod.fst → countKey k m = 0
  | [], _ => rfl
  | (k₂, v₂) :: rest, h => by
    simp only [List.map_cons, List.mem_cons, not_or] at h
    rw [countKey_cons, countKey_eq_zero_of_not_mem k rest h.2, if_neg (fun he => h.1 he.symm)]

theorem countKey_eq_one (k : String) : ∀ (m : EmbMap),
    NoDupKeys m → k ∈ m.map Prod.fst → countKey k m = 1
  | (k₂, v₂) :: rest, hnd, hmem => by
    simp only [NoDupKeys, List.map_cons, List.nodup_cons] at hnd
    rcases (by simpa using hmem : k = k₂ ∨ k ∈ rest.map Prod.fst) with h | h
    · subst h
      rw [countKey_cons, if_pos rfl, countKey_eq_zero_of_not_mem k rest hnd.1]
    · have hne : ¬ k₂ = k := by
        intro he
        subst he
        exact hnd.1 h
      rw [countKey_cons, if_neg hne, countKey_eq_one k rest hnd.2 h]

theorem addChunks_ok (emb : String → Except String (List ℚ)) (src ty : String) :
    ∀ (cs : List String) (r : RAG), r.useOpenAI = true →
    (∀ c ∈ cs, (emb c).isOk = true) →
    addChunks emb src ty r cs
      = ({ r with
            documents := r.documents ++ cs.map (fun c => ⟨c, src, ty⟩)
            embeddings := insertAll emb cs r.embeddings }, none)
  | [], r, _, _ => by simp [addChunks, insertAll]
  | c :: cs, r, hopen, hok => by
    have hc : (emb c).isOk = true := hok c (by simp)
    cases hemb : emb c with
    | error e =>
      rw [hemb] at hc
      simp [Except.isOk, Except.toBool] at hc
    | ok v =>
      have hstep : addChunks emb src ty r (c :: cs)
          = addChunks emb src ty
              { r with
                documents := r.documents ++ [⟨c, src, ty⟩]
                embeddings := mapSet c v r.embeddings } cs := by
        simp [addChunks, getEmbedding, hopen, hemb]
      have ih := addChunks_ok emb src ty cs
        { r with
          documents := r.documents ++ [⟨c, src, ty⟩]
          embeddings := mapSet c v r.embeddings }
        hopen (fun x hx => hok x (by simp [hx]))
      rw [hstep, ih]
      have hins : insertAll emb cs (mapSet c v r.embeddings)
          = insertAll emb (c :: cs) r.embeddings := by
        simp [insertAll, hemb]
      have hdocs : (r.documents ++ [(⟨c, src, ty⟩ : Document)])
            ++ cs.map (fun x => (⟨x, src, ty⟩ : Document))
          = r.documents ++ (c :: cs).map (fun x => (⟨x, src, ty⟩ : Document)) := by
        simp
      simp only [hins, hdocs]

theorem addChunks_stops_at_error (emb : String → Except String (List ℚ)) (src ty : String) :
    ∀ (pre : List String) (r : RAG) (c e : String) (suf : List String),
    r.useOpenAI = true → (∀ x ∈ pre, (emb x).isOk = true) → emb c = .error e →
    addChunks emb src ty r (pre ++ c :: suf)
      = ((addChunks emb src ty r pre).1, some ("failed to get embedding: " ++ e))
  | [], r, c, e, suf, hopen, _, hc => by
    simp [addChunks, getEmbedding, hopen, hc]
  | p :: pre, r, c, e, suf, hopen, hpre, hc => by
    have hp : (emb p).isOk = true := hpre p (by simp)
    cases hemb : emb p with
    | error e₂ =>
      rw [hemb] at hp
      simp [Except.isOk, Except.toBool] at hp
    | ok v =>
      have ih := addChunks_stops_at_error emb src ty pre
        { r with
          documents := r.documents ++ [⟨p, src, ty⟩]
          embeddings := mapSet p v r.embeddings }
        c e suf hopen (fun x hx => hpre x (by simp [hx])) hc
      simp only [List.cons_append, addChunks, getEmbedding, hopen, if_pos, hemb]
      simp only [hopen] at ih
      simpa using ih

theorem memKey_insertAll_aux (emb : String → Except String (List ℚ)) :
    ∀ (cs : List String) (m : EmbMap) (c : String), c ∈ m.map Prod.fst →
    c ∈ (insertAll emb cs m).map Prod.fst
  | [], m, c, h => by simpa [insertAll] using h
  | x :: cs, m, c, h => by
    cases hemb : emb x with
    | error e =>
      simpa [insertAll, hemb] using memKey_insertAll_aux emb cs m c h
    | ok v =>
      simpa [insertAll, hemb] using
        memKey_insertAll_aux emb cs (mapSet x v m) c (memKey_mapSet_mono c x v m h)

theorem memKey_insertAll (emb : String → Except String (List ℚ)) :
    ∀ (cs : List String) (m : EmbMap) (c : String), c ∈ cs → (emb c).isOk = true →
    c ∈ (insertAll emb cs m).map Prod.fst
  | [], _, c, hmem, _ => by simp at hmem
  | x :: cs, m, c, hmem, hok => by
    rcases List.mem_cons.mp hmem with h | h
    · subst h
      cases hemb : emb c with
      | error e =>
        rw [hemb] at hok
        simp [Except.isOk, Except.toBool] at hok
      | ok v =>
        simp only [insertAll, List.foldl_cons, hemb]
        exact memKey_insertAll_aux emb cs (mapSet c v m) c (memKey_mapSet_self c v m)
    · cases hemb : emb x with
      | error e =>
        simpa [insertAll, hemb] using memKey_insertAll emb cs m c h hok
      | ok v =>
        simpa [insertAll, hemb] using memKey_insertAll emb cs (mapSet x v m) c h hok

theorem noDupKeys_insertAll (emb : String → Except String (List ℚ)) :
    ∀ (cs : List String) (m : EmbMap), NoDupKeys m → NoDupKeys (insertAll emb cs m)
  | [], m, h => by simpa [insertAll] using h
  | x :: cs, m, h => by
    cases hemb : emb x with
    | error e =>
      simpa [insertAll, hemb] using noDupKeys_insertAll emb cs m h
    | ok v =>
      simpa [insertAll, hemb] using
        noDupKeys_insertAll emb cs (mapSet x v m) (noDupKeys_mapSet x v m h)

/-! Claim theorems: one theorem per claim of the specification audit, with
counterexamples and concrete witnesses where the statement has hypotheses. -/

/-- Claim C1: the specification says `findRelevantDocuments` returns at most
3 chunks ordered strictly descending by cosine similarity score.  The source
never sorts (the sort step is literally a comment, "Implementation of sorting
omitted for brevity", contradicting the adjacent comments "Sort by similarity
score (descending)" and "Return top 3 most relevant documents"): it returns
the first three documents in ingestion order.  Over an index of four chunks
whose scores against the query `[1, 0]` are `0, 3/5, 4/5, 1` in ingestion
order, the function returns the first three chunks — ascending scores — and
drops the chunk with the highest score `1`. -/
theorem C1_findRelevantDocuments_ignores_scores :
    findRelevantDocuments
      { documents := [⟨"c1", "s", "t"⟩, ⟨"c2", "s", "t"⟩, ⟨"c3", "s", "t"⟩, ⟨"c4", "s", "t"⟩]
        embeddings := [("c1", [0, 1]), ("c2", [3/5, 4/5]), ("c3", [4/5, 3/5]), ("c4", [1, 0])]
        chunkSize := 1000
        maxTokens := 4000
        useOpenAI := true }
      [1, 0]
      = [⟨"c1", "s", "t"⟩, ⟨"c2", "s", "t"⟩, ⟨"c3", "s", "t"⟩]
    ∧ cosineSimilarity [1, 0] [(0 : ℚ), 1] = some 0
    ∧ cosineSimilarity [1, 0] [(3 : ℚ)/5, 4/5] = some (3/5)
    ∧ cosineSimilarity [1, 0] [(4 : ℚ)/5, 3/5] = some (4/5)
    ∧ cosineSimilarity [1, 0] [(1 : ℚ), 0] = some 1 := by
  refine ⟨?_, ?_, ?_, ?_, ?_⟩
  · rfl
  all_goals norm_num [cosineSimilarity, dot, sqrt]

/-- Claim C2, counterexample: `AddDocument` is not atomic.  With chunk size 1,
a five-word document, and an embedding backend failing on the third chunk,
the call returns an error, yet the documents list has grown (the first two
chunks stay indexed), so the index is not left as it was before the call. -/
theorem C2_addDocument_not_atomic_cex :
    ((AddDocument (fun c => if c = "w3" then .error "boom" else .ok [1])
        (SetChunkSize NewRAG 1) ⟨"w1 w2 w3 w4 w5", "s", "t"⟩).2).isSome = true
    ∧ (AddDocument (fun c => if c = "w3" then .error "boom" else .ok [1])
        (SetChunkSize NewRAG 1) ⟨"w1 w2 w3 w4 w5", "s", "t"⟩).1.documents
      ≠ (SetChunkSize NewRAG 1).documents := by
  refine ⟨by decide, by decide⟩

/-- Claim C2, amended: when the embedding backend fails on some chunk,
`AddDocument` returns the wrapped error, and the resulting state is exactly
the state after ingesting the successfully embedded chunks preceding the
first failing chunk — the already-indexed chunks are kept, not rolled back. -/
theorem C2_addDocument_keeps_embedded_chunks
    (openaiEmbed : String → Except String (List ℚ)) (r : RAG) (doc : Document)
    (pre : List String) (c e : String) (suf : List String)
    (hopen : r.useOpenAI = true)
    (hsplit : splitIntoChunks r.chunkSize doc.Content = pre ++ c :: suf)
    (hpre : ∀ x ∈ pre, (openaiEmbed x).isOk = true)
    (hc : openaiEmbed c = .error e) :
    AddDocument openaiEmbed r doc
      = ((addChunks openaiEmbed doc.Source doc.Type r pre).1,
         some ("failed to get embedding: " ++ e)) := by
  unfold AddDocument
  rw [hsplit]
  exact addChunks_stops_at_error openaiEmbed doc.Source doc.Type pre r c e suf hopen hpre hc

/-- Claim C2, witness: the amended statement applied at the concrete
five-chunk document whose third chunk fails to embed. -/
theorem C2_keeps_embedded_chunks_witness :
    ((SetChunkSize NewRAG 1).useOpenAI = true)
    ∧ (splitIntoChunks (SetChunkSize NewRAG 1).chunkSize "w1 w2 w3 w4 w5"
        = ["w1", "w2"] ++ "w3" :: ["w4", "w5"])
    ∧ (∀ x ∈ ["w1", "w2"],
        ((fun c => if c = "w3" then (.error "boom" : Except String (List ℚ)) else .ok [1]) x).isOk = true)
    ∧ ((fun c => if c = "w3" then (.error "boom" : Except String (List ℚ)) else .ok [1]) "w3" = .error "boom")
    ∧ (AddDocument (fun c => if c = "w3" then .error "boom" else .ok [1])
         (SetChunkSize NewRAG 1) ⟨"w1 w2 w3 w4 w5", "s", "t"⟩
        = ((addChunks (fun c => if c = "w3" then .error "boom" else .ok [1]) "s" "t"
             (SetChunkSize NewRAG 1) ["w1", "w2"]).1,
           some ("failed to get embedding: " ++ "boom"))) :=
  ⟨by decide, by decide, by decide, by rfl,
   C2_addDocument_keeps_embedded_chunks
     (fun c => if c = "w3" then .error "boom" else .ok [1])
     (SetChunkSize NewRAG 1) ⟨"w1 w2 w3 w4 w5", "s", "t"⟩
     ["w1", "w2"] "w3" "boom" ["w4", "w5"]
     (by decide) (by decide) (by decide) (by rfl)⟩

/-- Claim C3, counterexample: on all-zero vectors `cosineSimilarity` does not
return `0` — the unguarded division `0/0` is performed, which in the source
produces the float `NaN` (modelled as `none`). -/
theorem C3_cosineSimilarity_zero_norm_cex :
    cosineSimilarity [(0 : ℚ), 0] [(0 : ℚ), 0] = none
    ∧ cosineSimilarity [(0 : ℚ), 0] [(0 : ℚ), 0] ≠ some 0 := by
  have h1 : cosineSimilarity [(0 : ℚ), 0] [(0 : ℚ), 0] = none := by
    norm_num [cosineSimilarity, dot, sqrt]
  refine ⟨h1, ?_⟩
  rw [h1]
  simp

/-- Claim C3, amended: when either vector has zero norm, `cosineSimilarity`
performs the division with a zero denominator (its numerator is then zero
too), i.e. it returns the IEEE `NaN` rather than `0` — there is no
fail-closed guard in the source. -/
theorem C3_cosineSimilarity_zero_norm_nan (a b : List ℚ)
    (h : dot a a = 0 ∨ dot b b = 0) :
    cosineSimilarity a b = none := by
  unfold cosineSimilarity sqrt
  rcases h with h | h <;> simp [h]

/-- Claim C3, witness: the amended statement applied to a pair of all-zero
two-component vectors. -/
theorem C3_zero_norm_witness :
    (dot [(0 : ℚ), 0] [(0 : ℚ), 0] = 0 ∨ dot [(0 : ℚ), 0] [(0 : ℚ), 0] = 0)
    ∧ cosineSimilarity [(0 : ℚ), 0] [(0 : ℚ), 0] = none :=
  ⟨Or.inl (by norm_num [dot]),
   C3_cosineSimilarity_zero_norm_nan [(0 : ℚ), 0] [(0 : ℚ), 0] (Or.inl (by norm_num [dot]))⟩

/-- Claim C4: the bound sim(a,b) ∈ [-1,1] for nonzero-norm vectors fails on
the source, because the helper named `sqrt` returns its argument unchanged
(float32 → float64 → float32 is the identity), so the denominator is the
product of the squared norms instead of the product of the norms: on the
vectors `[1/2]`, `[1/2]` the function returns `4`, outside `[-1, 1]`. -/
theorem C4_cosineSimilarity_unbounded :
    cosineSimilarity [(1 : ℚ)/2] [(1 : ℚ)/2] = some 4 ∧ ¬ ((4 : ℚ) ≤ 1) := by
  constructor
  · norm_num [cosineSimilarity, dot, sqrt]
  · norm_num

/-- Claim C5: for chunk size N > 0, `splitIntoChunks` satisfies the stated
contract — re-joining all produced chunks with single spaces reproduces the
whitespace-normalized input (the single-space join of its words); the chunk
count is the ceiling of word count over N; no chunk holds more than N words
(stated on the word groups the chunks are joined from); and empty input
yields zero chunks. -/
theorem C5_splitIntoChunks_spec (N : Int) (hN : 0 < N) (text : String) :
    String.intercalate " " (splitIntoChunks N text) = String.intercalate " " (fields text)
    ∧ (splitIntoChunks N text).length = ((fields text).length + (N.toNat - 1)) / N.toNat
    ∧ (∀ g ∈ splitWords N (fields text) [], (g.length : Int) ≤ N)
    ∧ splitIntoChunks N "" = [] := by
  refine ⟨?_, ?_, ?_, ?_⟩
  · unfold splitIntoChunks
    rw [intercalate_map_flatten " " _ (splitWords_ne_nil N (fields text) []),
      splitWords_flatten]
    simp
  · unfold splitIntoChunks
    rw [List.length_map]
    have h := splitWords_length N hN (fields text) [] (by simpa using hN)
    simpa using h
  · exact splitWords_length_le N hN (fields text) [] (by simpa using hN)
  · rfl

/-- Claim C5, witness: the chunking contract applied at N = 2 on the
three-word text "a b c". -/
theorem C5_witness :
    (0 : Int) < 2
    ∧ (String.intercalate " " (splitIntoChunks 2 "a b c") = String.intercalate " " (fields "a b c")
       ∧ (splitIntoChunks 2 "a b c").length = ((fields "a b c").length + ((2 : Int).toNat - 1)) / (2 : Int).toNat
       ∧ (∀ g ∈ splitWords 2 (fields "a b c") [], (g.length : Int) ≤ 2)
       ∧ splitIntoChunks 2 "" = []) :=
  ⟨by decide, C5_splitIntoChunks_spec 2 (by decide) "a b c"⟩

/-- Claim C6, counterexample: with chunk size 0 and the non-empty text
"a b", `splitIntoChunks` neither rejects the input (it is a total function
returning normally) nor returns a single chunk holding the whole text — it
returns one chunk per word. -/
theorem C6_chunkSize_zero_cex :
    splitIntoChunks 0 "a b" = ["a", "b"]
    ∧ (splitIntoChunks 0 "a b").length ≠ 1
    ∧ fields "a b" ≠ [] := by
  refine ⟨by decide, by decide, by decide⟩

/-- Claim C6, amended: for chunk size ≤ 0 the buffer flush condition holds
as soon as one word is buffered, so `splitIntoChunks` returns one chunk per
word of the input — equivalently, the list of the words of the text. -/
theorem C6_nonpositive_chunkSize_word_chunks (N : Int) (hN : N ≤ 0) (text : String) :
    splitIntoChunks N text = fields text := by
  unfold splitIntoChunks
  have key : ∀ (ws : List String), splitWords N ws [] = ws.map (fun w => [w]) := by
    intro ws
    induction ws with
    | nil => rfl
    | cons w t ih =>
      simp only [splitWords]
      rw [if_pos (by simp; omega), ih]
      rfl
  rw [key]
  have hid : ∀ (l : List String),
      (l.map (fun w => [w])).map (fun c => String.intercalate " " c) = l := by
    intro l
    induction l with
    | nil => rfl
    | cons a t ih => simp only [List.map_cons, ih, intercalate_one]
  exact hid (fields text)

/-- Claim C6, witness: the amended statement applied at chunk size 0 on the
text "a b". -/
theorem C6_nonpositive_witness :
    (0 : Int) ≤ 0 ∧ splitIntoChunks 0 "a b" = fields "a b" :=
  ⟨by decide, C6_nonpositive_chunkSize_word_chunks 0 (by decide) "a b"⟩

/-- Claim C7, counterexample: the setters perform no validation — a negative
chunk size and a zero token budget are stored verbatim in the configuration. -/
theorem C7_setters_no_validation_cex :
    (SetChunkSize NewRAG (-5)).chunkSize = -5
    ∧ (SetMaxTokens NewRAG 0).maxTokens = 0
    ∧ (-5 : Int) ≤ 0 := by
  refine ⟨rfl, rfl, by decide⟩

/-- Claim C7, amended: `SetChunkSize` and `SetMaxTokens` store any argument
unconditionally, non-positive values included; no range check exists. -/
theorem C7_setters_store_unconditionally (r : RAG) (size tokens : Int) :
    (SetChunkSize r size).chunkSize = size
    ∧ (SetMaxTokens r tokens).maxTokens = tokens :=
  ⟨rfl, rfl⟩

/-- Claim C8: ingesting the same document twice (all chunks embedding
successfully, starting from a well-formed embeddings map) suceeds both
times, appends one document entry per chunk per ingestion to the chunk
list, and leaves exactly one embeddings-map entry per chunk text —
content-addressed embeddings, list-addressed chunks. -/
theorem C8_duplicate_ingestion
    (openaiEmbed : String → Except String (List ℚ)) (r : RAG) (doc : Document)
    (hopen : r.useOpenAI = true)
    (hnd : NoDupKeys r.embeddings)
    (hok : ∀ c ∈ splitIntoChunks r.chunkSize doc.Content, (openaiEmbed c).isOk = true) :
    (AddDocument openaiEmbed r doc).2 = none
    ∧ (AddDocument openaiEmbed (AddDocument openaiEmbed r doc).1 doc).2 = none
    ∧ (AddDocument openaiEmbed (AddDocument openaiEmbed r doc).1 doc).1.documents
      = r.documents
        ++ (splitIntoChunks r.chunkSize doc.Content).map (fun c => ⟨c, doc.Source, doc.Type⟩)
        ++ (splitIntoChunks r.chunkSize doc.Content).map (fun c => ⟨c, doc.Source, doc.Type⟩)
    ∧ ∀ c ∈ splitIntoChunks r.chunkSize doc.Content,
        countKey c (AddDocument openaiEmbed (AddDocument openaiEmbed r doc).1 doc).1.embeddings = 1 := by
  have h1 : AddDocument openaiEmbed r doc
      = ({ r with
            documents := r.documents
              ++ (splitIntoChunks r.chunkSize doc.Content).map (fun c => ⟨c, doc.Source, doc.Type⟩)
            embeddings := insertAll openaiEmbed (splitIntoChunks r.chunkSize doc.Content) r.embeddings },
         none) :=
    addChunks_ok openaiEmbed doc.Source doc.Type (splitIntoChunks r.chunkSize doc.Content) r hopen hok
  have h2 : AddDocument openaiEmbed (AddDocument openaiEmbed r doc).1 doc
      = ({ (AddDocument openaiEmbed r doc).1 with
            documents := (AddDocument openaiEmbed r doc).1.documents
              ++ (splitIntoChunks r.chunkSize doc.Content).map (fun c => ⟨c, doc.Source, doc.Type⟩)
            embeddings := insertAll openaiEmbed (splitIntoChunks r.chunkSize doc.Content)
              (AddDocument openaiEmbed r doc).1.embeddings },
         none) := by
    have hcs : (AddDocument openaiEmbed r doc).1.chunkSize = r.chunkSize := by rw [h1]
    have hopen2 : (AddDocument openaiEmbed r doc).1.useOpenAI = true := by rw [h1]; exact hopen
    have := addChunks_ok openaiEmbed doc.Source doc.Type
      (splitIntoChunks r.chunkSize doc.Content) (AddDocument openaiEmbed r doc).1 hopen2 hok
    have hgoal : AddDocument openaiEmbed (AddDocument openaiEmbed r doc).1 doc
        = addChunks openaiEmbed doc.Source doc.Type (AddDocument openaiEmbed r doc).1
            (splitIntoChunks (AddDocument openaiEmbed r doc).1.chunkSize doc.Content) := rfl
    rw [hgoal, hcs]
    exact this
  refine ⟨by rw [h1], by rw [h2], ?_, ?_⟩
  · rw [h2]
    simp only [h1]
  · intro c hc
    rw [h2]
    simp only [h1]
    have hnd1 : NoDupKeys (insertAll openaiEmbed (splitIntoChunks r.chunkSize doc.Content) r.embeddings) :=
      noDupKeys_insertAll openaiEmbed _ _ hnd
    have hnd2 : NoDupKeys (insertAll openaiEmbed (splitIntoChunks r.chunkSize doc.Content)
        (insertAll openaiEmbed (splitIntoChunks r.chunkSize doc.Content) r.embeddings)) :=
      noDupKeys_insertAll openaiEmbed _ _ hnd1
    have hmem : c ∈ (insertAll openaiEmbed (splitIntoChunks r.chunkSize doc.Content)
        (insertAll openaiEmbed (splitIntoChunks r.chunkSize doc.Content) r.embeddings)).map Prod.fst :=
      memKey_insertAll openaiEmbed _ _ c hc (hok c hc)
    exact countKey_eq_one c _ hnd2 hmem

/-- Claim C8, witness: the duplicate-ingestion statement applied to the
one-chunk document "hello world" added twice to a fresh index with an
always-succeeding embedding backend. -/
theorem C8_witness :
    (NewRAG.useOpenAI = true)
    ∧ NoDupKeys NewRAG.embeddings
    ∧ (∀ c ∈ splitIntoChunks NewRAG.chunkSize "hello world",
        (((fun _ => .ok [1]) : String → Except String (List ℚ)) c).isOk = true)
    ∧ ((AddDocument (fun _ => .ok [1]) NewRAG ⟨"hello world", "src", "article"⟩).2 = none
       ∧ (AddDocument (fun _ => .ok [1])
            (AddDocument (fun _ => .ok [1]) NewRAG ⟨"hello world", "src", "article"⟩).1
            ⟨"hello world", "src", "article"⟩).2 = none
       ∧ (AddDocument (fun _ => .ok [1])
            (AddDocument (fun _ => .ok [1]) NewRAG ⟨"hello world", "src", "article"⟩).1
            ⟨"hello world", "src", "article"⟩).1.documents
         = NewRAG.documents
            ++ (splitIntoChunks NewRAG.chunkSize "hello world").map
                (fun c => ⟨c, "src", "article"⟩)
            ++ (splitIntoChunks NewRAG.chunkSize "hello world").map
                (fun c => ⟨c, "src", "article"⟩)
       ∧ ∀ c ∈ splitIntoChunks NewRAG.chunkSize "hello world",
           countKey c (AddDocument (fun _ => .ok [1])
             (AddDocument (fun _ => .ok [1]) NewRAG ⟨"hello world", "src", "article"⟩).1
             ⟨"hello world", "src", "article"⟩).1.embeddings = 1) :=
  ⟨by decide, by decide, by decide,
   C8_duplicate_ingestion (fun _ => .ok [1]) NewRAG ⟨"hello world", "src", "article"⟩
     (by decide) (by decide) (by decide)⟩

/-- Claim C9: with the Claude constructor (generation-only backend) the
embedding operation always fails fast with the descriptive error message of
the source, for every input text and every OpenAI stub — in particular it
never returns a vector, zero or otherwise. -/
theorem C9_claude_mode_embedding_fails
    (openaiEmbed : String → Except String (List ℚ)) (text : String) :
    getEmbedding openaiEmbed NewRAGWithClaude text
      = .error "Claude mode requires an OpenAI API key for embeddings - this is not implemented yet"
    ∧ ∀ v : List ℚ, getEmbedding openaiEmbed NewRAGWithClaude text ≠ .ok v := by
  constructor
  · simp [getEmbedding, NewRAGWithClaude]
  · intro v h
    simp [getEmbedding, NewRAGWithClaude] at h

/-- Claim C10: `Query` never mutates the RAG state — for every backend pair,
state, and question, the state component of the result is the input state
(documents, embeddings, chunkSize and maxTokens all unchanged), whether the
call succeeds or fails. -/
theorem C10_query_preserves_state
    (openaiEmbed : String → Except String (List ℚ))
    (gen : String → String → Int → Except String String)
    (r : RAG) (question : String) :
    (Query openaiEmbed gen r question).1 = r := by
  unfold Query
  cases getEmbedding openaiEmbed r question <;> rfl

end Cloudigest
